import Mathlib

/-!
Verification development for the USAspending awards explorer
(`USASpending_search_term.py`).

The script fetches award records from the USAspending API (submit an export
job, poll for completion with exponential backoff, download and unzip the
archive), then classifies and filters the rows client-side.  This file gives
a shallow embedding of that pipeline:

* pandas cells become the inductive type `Cell` (`na` models `NaN`/`None`,
  `str` a string cell, `date` a parsed datetime);
* a dataframe row becomes the structure `Row` holding the columns the
  classification and filtering logic reads; a dataframe is a `List Row`;
* `dateutil.parser.parse` (a fallible parse) becomes `dateutilParse`
  returning `Except`, and the `try/except` wrapper `parse_or_none` coerces
  the error to `Cell.na`;
* `np.select` becomes `npSelect`, first-match-wins over condition lists;
* the status-poll loop of `download_awards` becomes `pollLoop`, processing
  a given list of poll responses and recording each sleep it performs;
* the `Fetch Awards` orchestration loop becomes `fetchAwardsLoop`, mapping
  the per-group fetch outcomes (`Except FetchError`) to the run outcome.
-/

/-- A calendar date `year-month-day`, compared lexicographically (this is
how the script's `datetime` comparisons behave on dates). -/
structure Date where
  year : Nat
  month : Nat
  day : Nat
deriving DecidableEq, Repr

/-- A pandas cell: `na` models `NaN`/`None`/`NaT`, `str` a string-valued
cell, `date` a parsed datetime (the script only ever compares dates, so a
calendar date is enough). -/
inductive Cell where
  | na
  | str (s : String)
  | date (d : Date)
deriving DecidableEq, Repr

/-- Strict `<` on dates, lexicographic on (year, month, day). -/
def Date.ltb (a b : Date) : Bool :=
  if a.year ≠ b.year then decide (a.year < b.year)
  else if a.month ≠ b.month then decide (a.month < b.month)
  else decide (a.day < b.day)

/-- One dataframe row, restricted to the columns that
`clean_and_filter` and the orchestration loop read or write.  Empty CSV
fields arrive from `pd.read_csv` as `NaN`, i.e. `Cell.na`. -/
structure Row where
  award_or_idv_flag : Cell := .na
  award_id_piid : Cell := .na
  award_id_fain : Cell := .na
  award_type : Cell := .na
  period_of_performance_potential_end_date : Cell := .na
  period_of_performance_current_end_date : Cell := .na
  ordering_period_end_date : Cell := .na
  prime_award_base_transaction_description : Cell := .na
deriving DecidableEq, Repr

/-- `pd.notna` on a cell. -/
def cellNotna (c : Cell) : Bool :=
  match c with
  | .na => false
  | _ => true

/-- ASCII uppercase on a single codepoint (`str.upper` per character). -/
def upCode (n : Nat) : Nat := if 97 ≤ n ∧ n ≤ 122 then n - 32 else n

/-- ASCII lowercase on a single codepoint (`str.lower` per character). -/
def lowCode (n : Nat) : Nat := if 65 ≤ n ∧ n ≤ 90 then n + 32 else n

/-- The codepoints of a string. -/
def codes (s : String) : List Nat := s.data.map Char.toNat

/-- The codepoints of `s.upper()`. -/
def strUpper (s : String) : List Nat := (codes s).map upCode

/-- The codepoints of `s.lower()`. -/
def strLower (s : String) : List Nat := (codes s).map lowCode

/-- `series.str.upper().eq(s)` on one cell, for an already-uppercase
literal `s`: a string cell compares its uppercasing with `s`; `NaN` (and
non-string) cells compare as `False`. -/
def cellStrUpperEq (c : Cell) (s : String) : Bool :=
  match c with
  | .str v => strUpper v = codes s
  | _ => false

/-- `series.eq(s)` on one cell (`df['award_type'] == 'contract'` etc.). -/
def cellEqStr (c : Cell) (s : String) : Bool :=
  c = Cell.str s

/-- `np.select conds choices default`: the choice of the first true
condition, else the default (first match wins). -/
def npSelect : List Bool → List String → String → String
  | true :: _, c :: _, _ => c
  | false :: bs, _ :: cs, d => npSelect bs cs d
  | _, _, d => d

/-- The `award_type` classification of `clean_and_filter` (lines 167-171):
`np.select` over the two conditions
`flag.str.upper().eq('IDV') & piid.notna()` and
`flag.str.upper().eq('AWARD') & piid.notna()`, with choices
`contract_idv`/`contract` and default `grant`. -/
def classifyRow (r : Row) : Row :=
  { r with award_type := Cell.str (npSelect
      [cellStrUpperEq r.award_or_idv_flag "IDV" && cellNotna r.award_id_piid,
       cellStrUpperEq r.award_or_idv_flag "AWARD" && cellNotna r.award_id_piid]
      ["contract_idv", "contract"] "grant") }

/-- The classification pass applied to every row of the table. -/
def classifyStage (t : List Row) : List Row := t.map classifyRow

/-- Is a character a blank stripped by Python's `str.strip()`? (ASCII
whitespace is enough for the strings the script sees.) -/
def isWs (c : Char) : Bool :=
  c = ' ' || c = '\t' || c = '\n' || c = '\r'

/-- `str.strip()` on the character list of a string. -/
def stripChars (cs : List Char) : List Char :=
  ((cs.dropWhile isWs).reverse.dropWhile isWs).reverse

/-- Split a character list on `'-'` (the separator of the ISO dates the
API delivers). -/
def splitOnDash (cs : List Char) : List (List Char) :=
  match cs with
  | [] => [[]]
  | c :: rest =>
    if c = '-' then [] :: splitOnDash rest
    else
      match splitOnDash rest with
      | [] => [[c]]
      | g :: gs => (c :: g) :: gs

/-- The decimal value of a digit character, `none` for a non-digit. -/
def digitVal (c : Char) : Option Nat :=
  if 48 ≤ c.toNat ∧ c.toNat ≤ 57 then some (c.toNat - 48) else none

/-- Accumulate a decimal number over digit characters; any non-digit
makes the whole read fail. -/
def readNatAux (cs : List Char) (acc : Nat) : Option Nat :=
  match cs with
  | [] => some acc
  | c :: rest =>
    match digitVal c with
    | some d => readNatAux rest (acc * 10 + d)
    | none => none

/-- Read a non-empty all-digit character list as a number. -/
def readNat (cs : List Char) : Option Nat :=
  match cs with
  | [] => none
  | _ => readNatAux cs 0

/-- `dateutil.parser.parse` as the script relies on it: a fallible parse
of the ISO `year-month-day` dates the API delivers.  A string that is not
three dash-separated numbers is a parse error (the exception the Python
call would raise). -/
def dateutilParse (s : String) : Except String Date :=
  match (splitOnDash (stripChars s.data)).map readNat with
  | [some y, some m, some d] => .ok ⟨y, m, d⟩
  | _ => .error "unparseable date"

/-- `parse_or_none` (lines 174-180) on one cell: `NaN` and blank strings
become `None` without parsing; otherwise the fallible parse runs inside
`try/except` and an exception is coerced to `None`.  An already-parsed
date cell re-parses to itself (`str(datetime)` round-trips). -/
def parse_or_none (c : Cell) : Cell :=
  match c with
  | .na => .na
  | .date d => .date d
  | .str s =>
    if stripChars s.data = [] then .na
    else
      match dateutilParse s with
      | .ok d => .date d
      | .error _ => .na

/-- The date-parsing pass (lines 182-187): `parse_or_none` applied to the
three end-date columns of every row. -/
def parseRow (r : Row) : Row :=
  { r with
    period_of_performance_potential_end_date :=
      parse_or_none r.period_of_performance_potential_end_date
    period_of_performance_current_end_date :=
      parse_or_none r.period_of_performance_current_end_date
    ordering_period_end_date :=
      parse_or_none r.ordering_period_end_date }

/-- The date-parsing pass applied to the whole table. -/
def parseStage (t : List Row) : List Row := t.map parseRow

/-- `series > today` on one cell: a date cell compares, everything else
(`None`/`NaT`/strings) compares as `False` — this is how pandas evaluates
the comparison on missing values. -/
def cellGt (c : Cell) (now : Date) : Bool :=
  match c with
  | .date d => Date.ltb now d
  | _ => false

/-- The liveness predicate of lines 190-194: keep a row when its
`award_type` names a group whose relevant end-date column is strictly
later than the run timestamp. -/
def livenessPred (now : Date) (r : Row) : Bool :=
  (cellEqStr r.award_type "contract"
     && cellGt r.period_of_performance_potential_end_date now)
  || (cellEqStr r.award_type "grant"
     && cellGt r.period_of_performance_current_end_date now)
  || (cellEqStr r.award_type "contract_idv"
     && cellGt r.ordering_period_end_date now)

/-- The liveness filter (`df = df.loc[...]`, lines 190-194). -/
def livenessStage (now : Date) (t : List Row) : List Row :=
  t.filter (livenessPred now)

/-- Is `p` an initial segment of `l`? -/
def listIsPre (p l : List Nat) : Bool :=
  match p, l with
  | [], _ => true
  | _ :: _, [] => false
  | a :: ps, b :: ls => a = b && listIsPre ps ls

/-- Does `p` occur contiguously somewhere in `l`? -/
def listIsInf (p l : List Nat) : Bool :=
  match l with
  | [] => p.isEmpty
  | _ :: rest => listIsPre p l || listIsInf p rest

/-- Is `p` a final segment of `l`? -/
def listIsSfx (p l : List Nat) : Bool :=
  listIsPre p.reverse l.reverse

/-- Case-insensitive substring test: does `s` contain `k`, ignoring ASCII
case?  This is what the script's `str.contains(pattern, case=False)` with
an `re.escape`-d keyword amounts to: escaping strips all pattern-language
meaning, leaving plain substring search. -/
def containsCI (s k : String) : Bool :=
  listIsInf (strLower k) (strLower s)

/-- `str.contains("|".join(escaped keywords), case=False, na=False)` on
one row: a missing description matches nothing (`na=False`); a string
description matches when some keyword occurs in it case-insensitively. -/
def keywordPred (kws : List String) (r : Row) : Bool :=
  match r.prime_award_base_transaction_description with
  | .str s => kws.any (fun k => containsCI s k)
  | _ => false

/-- The client-side keyword filter (lines 197-201): applied only when the
keyword list is non-empty (`if keywords:`). -/
def keywordStage (kws : List String) (t : List Row) : List Row :=
  if kws.isEmpty then t else t.filter (keywordPred kws)

/-- `series.fillna('').astype(str)` on one cell: missing becomes the empty
string, a string stays itself, a date renders as text (the id columns the
script applies this to only ever hold strings or `NaN`). -/
def fillnaStr (c : Cell) : String :=
  match c with
  | .na => ""
  | .str s => s
  | .date d =>
    toString d.year ++ "-" ++ toString d.month ++ "-" ++ toString d.day

/-- The output row shape after lines 204-209: the two raw id columns
`award_id_fain`/`award_id_piid` are dropped and the derived
`piid_or_fain` column is added; every other column is carried over. -/
structure OutRow where
  award_or_idv_flag : Cell
  award_type : Cell
  period_of_performance_potential_end_date : Cell
  period_of_performance_current_end_date : Cell
  ordering_period_end_date : Cell
  prime_award_base_transaction_description : Cell
  piid_or_fain : Cell
deriving DecidableEq, Repr

/-- Lines 204-209 on one row: `piid_or_fain` is the concatenation
`fain.fillna('') + piid.fillna('')`, after which the two raw id columns
are dropped. -/
def mergeRow (r : Row) : OutRow :=
  { award_or_idv_flag := r.award_or_idv_flag
    award_type := r.award_type
    period_of_performance_potential_end_date :=
      r.period_of_performance_potential_end_date
    period_of_performance_current_end_date :=
      r.period_of_performance_current_end_date
    ordering_period_end_date := r.ordering_period_end_date
    prime_award_base_transaction_description :=
      r.prime_award_base_transaction_description
    piid_or_fain :=
      .str (fillnaStr r.award_id_fain ++ fillnaStr r.award_id_piid) }

/-- The id-merging pass applied to the whole table. -/
def mergeStage (t : List Row) : List OutRow := t.map mergeRow

/-- `clean_and_filter` (lines 163-210) as a pure pipeline on the table
value: classify `award_type`, parse the three end-date columns, keep
future-relevant rows, re-apply the keyword filter, merge the ids. -/
def clean_and_filter (df : List Row) (kws : List String) (now : Date) :
    List OutRow :=
  mergeStage (keywordStage kws (livenessStage now (parseStage
    (classifyStage df))))

/-- The end-date cell the liveness filter reads for a row, chosen by the
row's `award_type` (the table of §4.3: contract → potential end,
grant → current end, contract_idv → ordering period end). -/
def relevantEndDate (r : Row) : Cell :=
  if cellEqStr r.award_type "contract" then
    r.period_of_performance_potential_end_date
  else if cellEqStr r.award_type "grant" then
    r.period_of_performance_current_end_date
  else if cellEqStr r.award_type "contract_idv" then
    r.ordering_period_end_date
  else .na

/-- `relevantEndDate` for the post-merge row shape. -/
def relevantEndDateOut (r : OutRow) : Cell :=
  if cellEqStr r.award_type "contract" then
    r.period_of_performance_potential_end_date
  else if cellEqStr r.award_type "grant" then
    r.period_of_performance_current_end_date
  else if cellEqStr r.award_type "contract_idv" then
    r.ordering_period_end_date
  else .na

/-- `clean_and_filter` with the caller's dataframe held in a heap of
tables (references are heap indices), making the Python object mutation
explicit: `df = df.copy()` (line 164) allocates a fresh table, the
in-place column assignments of lines 167-187 update only that fresh
slot, line 190's `.loc[...].copy()` rebinds to a new value, and the
result is returned.  The caller's slot `r` is never written. -/
def clean_and_filter_heap (h : List (List Row)) (r : Nat)
    (kws : List String) (now : Date) : List (List Row) × List OutRow :=
  let t := h.getD r []
  let h1 := h ++ [t]
  let i := h.length
  let h2 := h1.set i (classifyStage (h1.getD i []))
  let h3 := h2.set i (parseStage (h2.getD i []))
  let t2 := livenessStage now (h3.getD i [])
  let t3 := keywordStage kws t2
  (h3, mergeStage t3)

/-- One response of the status endpoint, as `download_awards` reads it:
the `status`, `url` and `file_url` fields of the JSON body (each possibly
absent). -/
structure PollResp where
  status : Option String := none
  url : Option String := none
  file_url : Option String := none
deriving DecidableEq, Repr

/-- Python truthiness of an optional string: absent and empty are falsy. -/
def truthy (o : Option String) : Option String :=
  match o with
  | some s => if s = "" then none else some s
  | none => none

/-- `status_resp.json().get('url') or status_resp.json().get('file_url')`
followed by `if download_url:` — the resolvable download URL of a poll
response, when there is one. -/
def resolveUrl (r : PollResp) : Option String :=
  match truthy r.url with
  | some u => some u
  | none => truthy r.file_url

/-- The outcome of the polling loop on a finite response sequence. -/
inductive PollOutcome where
  | success (url : String)
  | jobFailed
  | exhausted
deriving DecidableEq, Repr

/-- The `while True` poll loop of `download_awards` (lines 124-149), run
against a given finite list of status responses, together with the list
of sleeps it performs: `finished` with a resolvable URL breaks out
successfully; `failed` raises (aborts with a job failure); anything else
— including `finished` without a resolvable URL — sleeps for the current
`delay` and retries with `delay = min(delay * 2, 30)`.  An exhausted
response list means the loop is still running. -/
def pollLoop (delay : Nat) : List PollResp → PollOutcome × List Nat
  | [] => (.exhausted, [])
  | r :: rest =>
    if r.status = some "finished" then
      match resolveUrl r with
      | some u => (.success u, [])
      | none =>
        let p := pollLoop (min (delay * 2) 30) rest
        (p.1, delay :: p.2)
    else if r.status = some "failed" then
      (.jobFailed, [])
    else
      let p := pollLoop (min (delay * 2) 30) rest
      (p.1, delay :: p.2)

/-- The delay before the `n`-th sleep of a poll loop started with
`delay = 1` (line 124): `1` at first, then `delay = min(delay * 2, 30)`
after every sleep (line 149). -/
def waitSeq : Nat → Nat
  | 0 => 1
  | n + 1 => min (waitSeq n * 2) 30

/-- Lines 153-158: scan the archive's entries in listing order and return
the parsed contents of the first whose name ends in `.csv`
case-insensitively; with no such entry, return the empty dataframe.  An
entry is modelled as its name alongside the table `pd.read_csv` would
produce from it. -/
def extractFirstCsv : List (String × List Row) → List Row
  | [] => []
  | (name, t) :: rest =>
    if listIsSfx (codes ".csv") (strLower name) then t
    else extractFirstCsv rest

/-- The errors `download_awards` can raise: a non-2xx HTTP response
(`raise_for_status`), a submission response without a job id, and a job
whose status polls to `failed`. -/
inductive FetchError where
  | httpStatus (code : Nat)
  | missingJobId
  | jobFailed
deriving DecidableEq, Repr

/-- The `Fetch Awards` orchestration loop (lines 265-274), given each
group's fetch outcome in order: an exception from `download_awards`
propagates (there is no `try/except` around the loop body), aborting the
whole run; an empty dataframe is warned about and skipped; a non-empty
dataframe gets its `award_type` column tagged with the group name and is
collected. -/
def fetchAwardsLoop :
    List (String × Except FetchError (List Row)) →
      Except FetchError (List (List Row))
  | [] => .ok []
  | (atype, res) :: rest =>
    match res with
    | .error e => .error e
    | .ok df =>
      if df.isEmpty then fetchAwardsLoop rest
      else
        match fetchAwardsLoop rest with
        | .error e => .error e
        | .ok acc =>
          .ok ((df.map fun r => { r with award_type := Cell.str atype })
            :: acc)

/-! ## Helper lemmas -/

theorem cellStrUpperEq_true_iff (c : Cell) (s : String) :
    cellStrUpperEq c s = true ↔
      ∃ f, c = Cell.str f ∧ strUpper f = codes s := by
  cases c <;> simp [cellStrUpperEq]

theorem cellNotna_true_iff (c : Cell) : cellNotna c = true ↔ c ≠ Cell.na := by
  cases c <;> simp [cellNotna]

/-! ## Claims -/

/-- C2: classification is first-match-wins: an IDV-flag equal to `IDV`
case-insensitively together with a non-empty contract-instrument id
(`award_id_piid`) yields `contract_idv`; flag `AWARD` case-insensitively
with a non-empty id yields `contract`; every other record — in particular
one with flag `IDV` but a missing id — yields `grant`.  The hypothesis
records the shape `pd.read_csv` gives the id column: an empty CSV field is
`NaN`, never the empty string. -/
theorem classification_matches_spec_rules (r : Row)
    (hcsv : r.award_id_piid = Cell.na ∨
      ∃ s, r.award_id_piid = Cell.str s ∧ s ≠ "") :
    (((∃ f, r.award_or_idv_flag = Cell.str f ∧ strUpper f = codes "IDV") ∧
        (∃ s, r.award_id_piid = Cell.str s ∧ s ≠ "")) →
      (classifyRow r).award_type = Cell.str "contract_idv") ∧
    (((∃ f, r.award_or_idv_flag = Cell.str f ∧ strUpper f = codes "AWARD") ∧
        (∃ s, r.award_id_piid = Cell.str s ∧ s ≠ "")) →
      (classifyRow r).award_type = Cell.str "contract") ∧
    ((¬((∃ f, r.award_or_idv_flag = Cell.str f ∧ strUpper f = codes "IDV") ∧
        (∃ s, r.award_id_piid = Cell.str s ∧ s ≠ "")) ∧
      ¬((∃ f, r.award_or_idv_flag = Cell.str f ∧ strUpper f = codes "AWARD") ∧
        (∃ s, r.award_id_piid = Cell.str s ∧ s ≠ ""))) →
      (classifyRow r).award_type = Cell.str "grant") := by
  refine ⟨?_, ?_, ?_⟩
  · rintro ⟨hf, s, hs, -⟩
    have h1 : cellStrUpperEq r.award_or_idv_flag "IDV" = true :=
      (cellStrUpperEq_true_iff _ _).mpr hf
    have h2 : cellNotna r.award_id_piid = true := by
      rw [hs]; rfl
    simp [classifyRow, h1, h2, npSelect]
  · rintro ⟨⟨f, hf, hup⟩, s, hs, -⟩
    have h1 : cellStrUpperEq r.award_or_idv_flag "IDV" = false := by
      rw [hf]
      simp only [cellStrUpperEq, hup]
      decide
    have h2 : cellStrUpperEq r.award_or_idv_flag "AWARD" = true :=
      (cellStrUpperEq_true_iff _ _).mpr ⟨f, hf, hup⟩
    have h3 : cellNotna r.award_id_piid = true := by
      rw [hs]; rfl
    simp [classifyRow, h1, h2, h3, npSelect]
  · rintro ⟨hnIdv, hnAward⟩
    have hpiid : cellNotna r.award_id_piid = true →
        ∃ s, r.award_id_piid = Cell.str s ∧ s ≠ "" := by
      intro hn
      rcases hcsv with h | ⟨s, hs, hne⟩
      · rw [h] at hn; exact absurd hn (by decide)
      · exact ⟨s, hs, hne⟩
    have h1 : (cellStrUpperEq r.award_or_idv_flag "IDV" &&
        cellNotna r.award_id_piid) = false := by
      cases h : (cellStrUpperEq r.award_or_idv_flag "IDV" &&
          cellNotna r.award_id_piid)
      · rfl
      · simp only [Bool.and_eq_true] at h
        exact absurd ⟨(cellStrUpperEq_true_iff _ _).mp h.1, hpiid h.2⟩ hnIdv
    have h2 : (cellStrUpperEq r.award_or_idv_flag "AWARD" &&
        cellNotna r.award_id_piid) = false := by
      cases h : (cellStrUpperEq r.award_or_idv_flag "AWARD" &&
          cellNotna r.award_id_piid)
      · rfl
      · simp only [Bool.and_eq_true] at h
        exact absurd ⟨(cellStrUpperEq_true_iff _ _).mp h.1, hpiid h.2⟩ hnAward
    simp [classifyRow, h1, h2, npSelect]

/-- C2 witness: the spec's own example — flag `IDV` with id `P1` classifies
as `contract_idv`, and the same flag with a missing id classifies as
`grant`. -/
theorem classification_matches_spec_rules_witness :
    (classifyRow { award_or_idv_flag := Cell.str "IDV",
                   award_id_piid := Cell.str "P1" }).award_type
        = Cell.str "contract_idv" ∧
    (classifyRow { award_or_idv_flag := Cell.str "IDV",
                   award_id_piid := Cell.na }).award_type
        = Cell.str "grant" := by
  constructor
  · exact (classification_matches_spec_rules _
      (Or.inr ⟨"P1", rfl, by decide⟩)).1
      ⟨⟨"IDV", rfl, by decide⟩, "P1", rfl, by decide⟩
  · exact (classification_matches_spec_rules _ (Or.inl rfl)).2.2
      ⟨fun h => by obtain ⟨-, s, hs, -⟩ := h; simp at hs,
       fun h => by obtain ⟨-, s, hs, -⟩ := h; simp at hs⟩

/-- C5: with a non-empty keyword list, a row survives the client-side
keyword filter iff its description is a string containing at least one
keyword as a case-insensitive substring (`re.escape` strips any
pattern-language meaning, and a missing description matches nothing,
`na=False`); with an empty keyword list the filter is not applied at all
and removes nothing. -/
theorem keyword_filter_semantics (kws : List String) (t : List Row)
    (r : Row) (hne : kws ≠ []) :
    (r ∈ keywordStage kws t ↔ r ∈ t ∧
      ∃ s, r.prime_award_base_transaction_description = Cell.str s ∧
        ∃ k ∈ kws, listIsInf (strLower k) (strLower s) = true) ∧
    keywordStage [] t = t := by
  constructor
  · have hkp : ∀ x : Row, keywordPred kws x = true ↔
        ∃ s, x.prime_award_base_transaction_description = Cell.str s ∧
          ∃ k ∈ kws, listIsInf (strLower k) (strLower s) = true := by
      intro x
      cases hx : x.prime_award_base_transaction_description <;>
        simp [keywordPred, hx, containsCI, List.any_eq_true]
    rw [keywordStage, if_neg (by simpa using hne), List.mem_filter]
    rw [hkp r]
  · rfl

/-- C5 witness: the spec's example — keyword list `["alpha"]` and
description `"Alpha Project"`: the row survives the keyword filter. -/
theorem keyword_filter_semantics_witness :
    ({ prime_award_base_transaction_description :=
        Cell.str "Alpha Project" : Row } ∈
      keywordStage ["alpha"]
        [{ prime_award_base_transaction_description :=
            Cell.str "Alpha Project" : Row }]) ∧ ["alpha"] ≠ [] :=
  ⟨(keyword_filter_semantics ["alpha"] _ _ (by decide)).1.mpr
      ⟨List.mem_singleton.mpr rfl,
        "Alpha Project", rfl, "alpha", List.mem_singleton.mpr rfl,
        by decide⟩,
    by decide⟩

/-- The delay-update arithmetic of line 149: updating a capped power of
two doubles it under the same cap. -/
theorem min_double_cap (k : Nat) :
    min (min (2 ^ k) 30 * 2) 30 = min (2 ^ (k + 1)) 30 := by
  rw [pow_succ]
  generalize (2 : Nat) ^ k = a
  omega

/-- The sleeps a poll loop started at delay `2 ^ k` capped at 30 performs
over a run of non-terminal responses. -/
theorem pollLoop_waits_nonterminal (l : List PollResp) : ∀ k : Nat,
    (∀ r ∈ l, r.status ≠ some "finished" ∧ r.status ≠ some "failed") →
    (pollLoop (min (2 ^ k) 30) l).2 =
      (List.range l.length).map (fun n => min (2 ^ (k + n)) 30) := by
  induction l with
  | nil => intro k _; simp [pollLoop]
  | cons r rest ih =>
    intro k h
    have hr := h r (List.mem_cons_self r rest)
    have hrest : ∀ x ∈ rest,
        x.status ≠ some "finished" ∧ x.status ≠ some "failed" :=
      fun x hx => h x (List.mem_cons_of_mem r hx)
    rw [pollLoop, if_neg (by simpa using hr.1), if_neg (by simpa using hr.2),
      min_double_cap k]
    simp only [ih (k + 1) hrest, List.length_cons, List.range_succ_eq_map,
      List.map_cons, List.map_map]
    congr 1
    refine List.map_congr_left fun n hn => ?_
    have hkn : k + 1 + n = k + (n + 1) := by omega
    simp [Function.comp, hkn]

/-- Closed form of the delay sequence: capped powers of two. -/
theorem waitSeq_closed (n : Nat) : waitSeq n = min (2 ^ n) 30 := by
  induction n with
  | zero => decide
  | succ n ih => rw [waitSeq, ih, min_double_cap]

/-- C6: over any run of consecutive non-terminal status polls the loop
sleeps `waitSeq 0, waitSeq 1, …`, and that sequence is
`1, 2, 4, 8, 16, 30, 30, 30, …` — it starts at 1, doubles after each
retry, and is capped at 30. -/
theorem backoff_delay_sequence (l : List PollResp)
    (h : ∀ r ∈ l, r.status ≠ some "finished" ∧ r.status ≠ some "failed") :
    (pollLoop 1 l).2 = (List.range l.length).map waitSeq ∧
    (∀ n, waitSeq n = min (2 ^ n) 30) ∧
    (List.range 8).map waitSeq = [1, 2, 4, 8, 16, 30, 30, 30] := by
  refine ⟨?_, waitSeq_closed, by decide⟩
  have hw := pollLoop_waits_nonterminal l 0 h
  norm_num at hw
  rw [hw]
  exact List.map_congr_left fun n _ => (waitSeq_closed n).symm

/-- A run of six non-terminal (`running`) status responses. -/
def pollRuns6 : List PollResp :=
  List.replicate 6 { status := some "running" }

/-- C6 witness: on six consecutive `running` polls the recorded sleeps
are the first six values of the delay sequence. -/
theorem backoff_delay_sequence_witness :
    (pollLoop 1 pollRuns6).2 = (List.range pollRuns6.length).map waitSeq ∧
    (pollLoop 1 pollRuns6).2 = [1, 2, 4, 8, 16, 30] :=
  ⟨(backoff_delay_sequence pollRuns6 (by decide)).1, by decide⟩

/-- C8: the archive scan returns the parsed contents of the first entry in
listing order whose name ends in `.csv` case-insensitively, and an
archive with no such entry yields the empty dataframe rather than an
error. -/
theorem extract_first_csv_semantics :
    (∀ (pre : List (String × List Row)) (name : String) (t : List Row)
        (rest : List (String × List Row)),
      (∀ p ∈ pre, listIsSfx (codes ".csv") (strLower p.1) = false) →
      listIsSfx (codes ".csv") (strLower name) = true →
      extractFirstCsv (pre ++ (name, t) :: rest) = t) ∧
    (∀ entries : List (String × List Row),
      (∀ p ∈ entries, listIsSfx (codes ".csv") (strLower p.1) = false) →
      extractFirstCsv entries = []) := by
  constructor
  · intro pre name t rest hpre hname
    induction pre with
    | nil => simp [extractFirstCsv, hname]
    | cons p pre ih =>
      have hp := hpre p (List.mem_cons_self p pre)
      rw [List.cons_append, extractFirstCsv]
      rw [if_neg (by simp [hp])]
      exact ih fun q hq => hpre q (List.mem_cons_of_mem p hq)
  · intro entries hall
    induction entries with
    | nil => rfl
    | cons p rest ih =>
      have hp := hall p (List.mem_cons_self p rest)
      cases p with
      | mk name t =>
        rw [extractFirstCsv, if_neg (by simp_all)]
        exact ih fun q hq => hall q (List.mem_cons_of_mem _ hq)

/-- A one-row table used as a concrete archive payload. -/
def sampleGrantRow : Row :=
  { award_id_fain := .str "FAIN1",
    period_of_performance_current_end_date := .str "2030-01-01",
    prime_award_base_transaction_description := .str "wall street journal" }

/-- C8 witness: in an archive listing a readme before an upper-case
`.CSV` entry, the scan returns that entry's parsed table; an archive with
no CSV entry yields the empty table. -/
theorem extract_first_csv_semantics_witness :
    extractFirstCsv
        [("readme.txt", []), ("Data.CSV", [sampleGrantRow]),
         ("other.csv", [])] = [sampleGrantRow] ∧
    extractFirstCsv [("readme.txt", []), ("notes.md", [])] = [] := by
  constructor
  · exact extract_first_csv_semantics.1 [("readme.txt", [])] "Data.CSV"
      [sampleGrantRow] [("other.csv", [])] (by decide) (by decide)
  · exact extract_first_csv_semantics.2 _ (by decide)

/-- C9: a poll that reads `finished` but resolves no `url`/`file_url`
neither ends the loop nor raises: the loop sleeps the current delay and
polls again; and the loop can only ever exit successfully with a URL
resolved from a `finished` response it actually polled. -/
theorem finished_without_url_retries :
    (∀ (d : Nat) (r : PollResp) (rest : List PollResp),
      r.status = some "finished" → resolveUrl r = none →
      pollLoop d (r :: rest) =
        ((pollLoop (min (d * 2) 30) rest).1,
          d :: (pollLoop (min (d * 2) 30) rest).2)) ∧
    (∀ (d : Nat) (l : List PollResp) (u : String),
      (pollLoop d l).1 = PollOutcome.success u →
      ∃ r ∈ l, r.status = some "finished" ∧ resolveUrl r = some u) := by
  constructor
  · intro d r rest hst hurl
    rw [pollLoop, if_pos hst, hurl]
  · intro d l
    induction l generalizing d with
    | nil => intro u h; exact absurd h (by simp [pollLoop])
    | cons r rest ih =>
      intro u h
      by_cases hst : r.status = some "finished"
      · cases hurl : resolveUrl r with
        | some v =>
          have hred : pollLoop d (r :: rest) =
              (PollOutcome.success v, []) := by
            rw [pollLoop, if_pos hst, hurl]
          rw [hred] at h
          simp only [PollOutcome.success.injEq] at h
          exact ⟨r, List.mem_cons_self r rest, hst, by rw [hurl, h]⟩
        | none =>
          have hred : pollLoop d (r :: rest) =
              ((pollLoop (min (d * 2) 30) rest).1,
                d :: (pollLoop (min (d * 2) 30) rest).2) := by
            rw [pollLoop, if_pos hst, hurl]
          rw [hred] at h
          obtain ⟨x, hx, hxs⟩ := ih (min (d * 2) 30) u h
          exact ⟨x, List.mem_cons_of_mem r hx, hxs⟩
      · by_cases hf : r.status = some "failed"
        · have hred : pollLoop d (r :: rest) =
              (PollOutcome.jobFailed, []) := by
            rw [pollLoop, if_neg hst, if_pos hf]
          rw [hred] at h
          exact absurd h (by simp)
        · have hred : pollLoop d (r :: rest) =
              ((pollLoop (min (d * 2) 30) rest).1,
                d :: (pollLoop (min (d * 2) 30) rest).2) := by
            rw [pollLoop, if_neg hst, if_neg hf]
          rw [hred] at h
          obtain ⟨x, hx, hxs⟩ := ih (min (d * 2) 30) u h
          exact ⟨x, List.mem_cons_of_mem r hx, hxs⟩

/-- C9 witness: with delay 3, a `finished` response carrying an empty
`url` and no `file_url` makes the loop sleep 3 and continue; the next
response ends it. -/
theorem finished_without_url_retries_witness :
    pollLoop 3 [{ status := some "finished", url := some "" },
                { status := some "finished", url := some "http" }] =
      ((pollLoop (min (3 * 2) 30)
          [{ status := some "finished", url := some "http" }]).1,
        3 :: (pollLoop (min (3 * 2) 30)
          [{ status := some "finished", url := some "http" }]).2) :=
  finished_without_url_retries.1 3
    { status := some "finished", url := some "" }
    [{ status := some "finished", url := some "http" }] rfl rfl

/-- C7: if the status sequence reads `failed` before any `finished`, the
loop stops right there — outcome `jobFailed`, having slept exactly once
per earlier (non-terminal) poll, regardless of any later responses; if no
poll ever reads `failed` and the sequence ends in `finished` with a
resolvable URL, the loop instead exits successfully. -/
theorem poll_failed_before_finished :
    (∀ (d : Nat) (pre : List PollResp) (r : PollResp)
        (rest : List PollResp),
      (∀ x ∈ pre, x.status ≠ some "finished" ∧ x.status ≠ some "failed") →
      r.status = some "failed" →
      (pollLoop d (pre ++ r :: rest)).1 = PollOutcome.jobFailed ∧
      (pollLoop d (pre ++ r :: rest)).2.length = pre.length) ∧
    (∀ (d : Nat) (l : List PollResp) (fin : PollResp),
      (∀ x ∈ l, x.status ≠ some "failed") →
      l.getLast? = some fin →
      fin.status = some "finished" → resolveUrl fin ≠ none →
      ∃ u, (pollLoop d l).1 = PollOutcome.success u) := by
  constructor
  · intro d pre r rest hpre hr
    induction pre generalizing d with
    | nil =>
      have hne : r.status ≠ some "finished" := by rw [hr]; decide
      have hred : pollLoop d (r :: rest) = (PollOutcome.jobFailed, []) := by
        rw [pollLoop, if_neg hne, if_pos hr]
      rw [List.nil_append, hred]
      exact ⟨rfl, rfl⟩
    | cons p pre ih =>
      have hp := hpre p (List.mem_cons_self p pre)
      have hpre2 : ∀ x ∈ pre,
          x.status ≠ some "finished" ∧ x.status ≠ some "failed" :=
        fun x hx => hpre x (List.mem_cons_of_mem p hx)
      have hred : pollLoop d ((p :: pre) ++ r :: rest) =
          ((pollLoop (min (d * 2) 30) (pre ++ r :: rest)).1,
            d :: (pollLoop (min (d * 2) 30) (pre ++ r :: rest)).2) := by
        rw [List.cons_append, pollLoop, if_neg hp.1, if_neg hp.2]
      obtain ⟨ih1, ih2⟩ := ih (min (d * 2) 30) hpre2
      rw [hred]
      exact ⟨ih1, by simpa using ih2⟩
  · intro d l
    induction l generalizing d with
    | nil => intro fin _ hlast _ _; exact absurd hlast (by simp)
    | cons r rest ih =>
      intro fin hnf hlast hst hurl
      cases rest with
      | nil =>
        have hfin : r = fin := by simpa using hlast
        subst hfin
        cases hu : resolveUrl r with
        | none => exact absurd hu hurl
        | some u =>
          refine ⟨u, ?_⟩
          have hred : pollLoop d [r] = (PollOutcome.success u, []) := by
            rw [pollLoop, if_pos hst, hu]
          rw [hred]
      | cons q rest2 =>
        have hlast2 : (q :: rest2).getLast? = some fin := by
          rwa [List.getLast?_cons_cons] at hlast
        have hnf2 : ∀ x ∈ q :: rest2, x.status ≠ some "failed" :=
          fun x hx => hnf x (List.mem_cons_of_mem r hx)
        by_cases hrf : r.status = some "finished"
        · cases hu : resolveUrl r with
          | some u =>
            refine ⟨u, ?_⟩
            have hred : pollLoop d (r :: q :: rest2) =
                (PollOutcome.success u, []) := by
              rw [pollLoop, if_pos hrf, hu]
            rw [hred]
          | none =>
            obtain ⟨u, hu2⟩ := ih (min (d * 2) 30) fin hnf2 hlast2 hst hurl
            refine ⟨u, ?_⟩
            have hred : pollLoop d (r :: q :: rest2) =
                ((pollLoop (min (d * 2) 30) (q :: rest2)).1,
                  d :: (pollLoop (min (d * 2) 30) (q :: rest2)).2) := by
              rw [pollLoop, if_pos hrf, hu]
            rw [hred]
            exact hu2
        · obtain ⟨u, hu2⟩ := ih (min (d * 2) 30) fin hnf2 hlast2 hst hurl
          refine ⟨u, ?_⟩
          have hred : pollLoop d (r :: q :: rest2) =
              ((pollLoop (min (d * 2) 30) (q :: rest2)).1,
                d :: (pollLoop (min (d * 2) 30) (q :: rest2)).2) := by
            rw [pollLoop, if_neg hrf,
              if_neg (hnf r (List.mem_cons_self r (q :: rest2)))]
          rw [hred]
          exact hu2

/-- C7 witness: a `running` poll followed by a `failed` one ends in a job
failure after exactly one sleep, and a `running` poll followed by a
`finished` one with a URL ends successfully. -/
theorem poll_failed_before_finished_witness :
    ((pollLoop 1 [{ status := some "running" },
        { status := some "failed" },
        { status := some "finished", url := some "http" }]).1
      = PollOutcome.jobFailed ∧
     (pollLoop 1 [{ status := some "running" },
        { status := some "failed" },
        { status := some "finished", url := some "http" }]).2.length = 1) ∧
    ∃ u, (pollLoop 1 [{ status := some "running" },
        { status := some "finished", url := some "http" }]).1
      = PollOutcome.success u := by
  constructor
  · have h := poll_failed_before_finished.1 1
      [{ status := some "running" }] { status := some "failed" }
      [{ status := some "finished", url := some "http" }]
      (by decide) rfl
    simpa using h
  · exact poll_failed_before_finished.2 1
      [{ status := some "running" },
       { status := some "finished", url := some "http" }]
      { status := some "finished", url := some "http" }
      (by decide) rfl rfl (by decide)

theorem cellEqStr_true_iff (c : Cell) (s : String) :
    cellEqStr c s = true ↔ c = Cell.str s := by
  simp [cellEqStr]

theorem cellGt_eq_false_of_not_date (c : Cell) (now : Date)
    (h : ∀ d, c ≠ Cell.date d) : cellGt c now = false := by
  cases c with
  | na => rfl
  | str s => rfl
  | date d => exact absurd rfl (h d)

theorem cellGt_true_iff (c : Cell) (now : Date) :
    cellGt c now = true ↔
      ∃ d, c = Cell.date d ∧ Date.ltb now d = true := by
  cases c <;> simp [cellGt]

theorem keywordStage_subset (kws : List String) (t : List Row) (r : Row)
    (h : r ∈ keywordStage kws t) : r ∈ t := by
  unfold keywordStage at h
  split at h
  · exact h
  · exact (List.mem_filter.mp h).1

theorem relevantEndDateOut_mergeRow (r : Row) :
    relevantEndDateOut (mergeRow r) = relevantEndDate r := rfl

/-- C3: end-date parsing never raises — a missing value parses to `None`
without touching the parser, a blank string parses to `None`, a parser
exception is coerced to `None` — and a record whose type-relevant end
date is missing has its liveness comparison evaluate to `false`, so the
record is excluded without error. -/
theorem date_parse_never_raises :
    (parse_or_none Cell.na = Cell.na) ∧
    (∀ v : String, stripChars v.data = [] →
      parse_or_none (Cell.str v) = Cell.na) ∧
    (∀ s e, dateutilParse s = Except.error e →
      parse_or_none (Cell.str s) = Cell.na) ∧
    (∀ (now : Date) (t : List Row) (r : Row),
      (∀ d, relevantEndDate r ≠ Cell.date d) →
      livenessPred now r = false ∧ r ∉ livenessStage now t) := by
  refine ⟨rfl, ?_, ?_, ?_⟩
  · intro v hv
    simp [parse_or_none, hv]
  · intro s e hs
    by_cases hblank : stripChars s.data = []
    · simp [parse_or_none, hblank]
    · simp [parse_or_none, hblank, hs]
  · intro now t r hmiss
    have hpred : livenessPred now r = false := by
      by_cases hc : r.award_type = Cell.str "contract"
      · have hrel : relevantEndDate r =
            r.period_of_performance_potential_end_date := by
          simp [relevantEndDate, cellEqStr, hc]
        have hgt := cellGt_eq_false_of_not_date _ now
          (fun d => hrel ▸ hmiss d)
        simp [livenessPred, cellEqStr, hc, hgt]
      · by_cases hg : r.award_type = Cell.str "grant"
        · have hrel : relevantEndDate r =
              r.period_of_performance_current_end_date := by
            simp [relevantEndDate, cellEqStr, hg]
          have hgt := cellGt_eq_false_of_not_date _ now
            (fun d => hrel ▸ hmiss d)
          simp [livenessPred, cellEqStr, hg, hgt]
        · by_cases hi : r.award_type = Cell.str "contract_idv"
          · have hrel : relevantEndDate r = r.ordering_period_end_date := by
              simp [relevantEndDate, cellEqStr, hi]
            have hgt := cellGt_eq_false_of_not_date _ now
              (fun d => hrel ▸ hmiss d)
            simp [livenessPred, cellEqStr, hi, hgt]
          · simp [livenessPred, cellEqStr, hc, hg, hi]
    exact ⟨hpred, by simp [livenessStage, List.mem_filter, hpred]⟩

/-- C3 witness: the blank string and an unparseable string both parse to
`None`, and a concrete grant record with a missing current end date is
excluded by the liveness filter. -/
theorem date_parse_never_raises_witness :
    parse_or_none (Cell.str "  ") = Cell.na ∧
    parse_or_none (Cell.str "not a date") = Cell.na ∧
    ({ award_type := Cell.str "grant",
       period_of_performance_current_end_date := Cell.na : Row } ∉
      livenessStage ⟨2025, 1, 1⟩
        [{ award_type := Cell.str "grant",
           period_of_performance_current_end_date := Cell.na : Row }]) :=
  ⟨date_parse_never_raises.2.1 "  " (by decide),
   date_parse_never_raises.2.2.1 "not a date" "unparseable date" rfl,
   (date_parse_never_raises.2.2.2 ⟨2025, 1, 1⟩ _ _
      (fun d h => by simp [relevantEndDate, cellEqStr] at h)).2⟩

/-- C4: every record in the filtered result set has the end-date field
selected by its derived `award_type` strictly later than the single run
timestamp, and a record whose relevant date equals or precedes that
timestamp is excluded by the liveness filter. -/
theorem liveness_filter_invariant :
    (∀ (df : List Row) (kws : List String) (now : Date) (r : OutRow),
      r ∈ clean_and_filter df kws now →
      ∃ d, relevantEndDateOut r = Cell.date d ∧ Date.ltb now d = true) ∧
    (∀ (now : Date) (t : List Row) (r : Row) (d : Date),
      relevantEndDate r = Cell.date d → Date.ltb now d = false →
      r ∉ livenessStage now t) := by
  constructor
  · intro df kws now r hr
    unfold clean_and_filter mergeStage at hr
    obtain ⟨r2, hr2, hmr⟩ := List.mem_map.mp hr
    have hr3 : r2 ∈ livenessStage now (parseStage (classifyStage df)) :=
      keywordStage_subset _ _ _ hr2
    have hpred : livenessPred now r2 = true := (List.mem_filter.mp hr3).2
    subst hmr
    rw [relevantEndDateOut_mergeRow]
    simp only [livenessPred, Bool.or_eq_true, Bool.and_eq_true] at hpred
    rcases hpred with (⟨hty, hgt⟩ | ⟨hty, hgt⟩) | ⟨hty, hgt⟩ <;>
      · have hty2 := (cellEqStr_true_iff _ _).mp hty
        obtain ⟨d, hd, hlt⟩ := (cellGt_true_iff _ _).mp hgt
        exact ⟨d, by simp [relevantEndDate, cellEqStr, hty2, hd], hlt⟩
  · intro now t r d hrel hlt
    have hpred : livenessPred now r = false := by
      by_cases hc : r.award_type = Cell.str "contract"
      · have hpot : r.period_of_performance_potential_end_date =
            Cell.date d := by
          simpa [relevantEndDate, cellEqStr, hc] using hrel
        simp [livenessPred, cellEqStr, hc, cellGt, hpot, hlt]
      · by_cases hg : r.award_type = Cell.str "grant"
        · have hcur : r.period_of_performance_current_end_date =
              Cell.date d := by
            simpa [relevantEndDate, cellEqStr, hg] using hrel
          simp [livenessPred, cellEqStr, hg, cellGt, hcur, hlt]
        · by_cases hi : r.award_type = Cell.str "contract_idv"
          · have hord : r.ordering_period_end_date = Cell.date d := by
              simpa [relevantEndDate, cellEqStr, hi] using hrel
            simp [livenessPred, cellEqStr, hi, cellGt, hord, hlt]
          · exact absurd hrel
              (by simp [relevantEndDate, cellEqStr, hc, hg, hi])
    simp [livenessStage, List.mem_filter, hpred]

/-- C4 witness: with `now = 2025-01-01`, a grant row whose current end
date is `2025-06-01` passes the full pipeline and indeed carries a
relevant end date after `now`, while one dated `2024-12-31` is excluded
by the liveness filter. -/
theorem liveness_filter_invariant_witness :
    (∃ d, relevantEndDateOut
        (mergeRow { award_type := Cell.str "grant",
                    period_of_performance_current_end_date :=
                      Cell.date ⟨2025, 6, 1⟩ }) = Cell.date d ∧
      Date.ltb ⟨2025, 1, 1⟩ d = true) ∧
    ({ award_type := Cell.str "grant",
       period_of_performance_current_end_date :=
         Cell.date ⟨2024, 12, 31⟩ : Row } ∉
      livenessStage ⟨2025, 1, 1⟩
        [{ award_type := Cell.str "grant",
           period_of_performance_current_end_date :=
             Cell.date ⟨2024, 12, 31⟩ : Row }]) := by
  constructor
  · exact liveness_filter_invariant.1
      [{ award_type := Cell.str "grant",
         period_of_performance_current_end_date :=
           Cell.date ⟨2025, 6, 1⟩ }] [] ⟨2025, 1, 1⟩ _ (by decide)
  · exact liveness_filter_invariant.2 ⟨2025, 1, 1⟩ _ _ ⟨2024, 12, 31⟩
      (by decide) (by decide)

theorem heap_getD_fresh (h : List (List Row)) (x : List Row) :
    (h ++ [x]).getD h.length [] = x := by
  rw [List.getD_eq_getElem?_getD, List.getElem?_append_right (le_refl _)]
  simp

theorem heap_set_getD (l : List (List Row)) (i : Nat) (x : List Row)
    (hi : i < l.length) : (l.set i x).getD i [] = x := by
  rw [List.getD_eq_getElem?_getD, List.getElem?_set_self hi]
  rfl

/-- C10: `clean_and_filter` works on a copy — `df = df.copy()` on line 164
allocates a fresh table and every later in-place write hits that fresh
slot, so the caller's table is unchanged after the call: same rows, same
columns, same cells.  The pure pipeline result is what the heap version
returns. -/
theorem clean_and_filter_frame (h : List (List Row)) (r : Nat)
    (kws : List String) (now : Date) (hr : r < h.length) :
    (clean_and_filter_heap h r kws now).1.getD r [] = h.getD r [] ∧
    (clean_and_filter_heap h r kws now).2 =
      clean_and_filter (h.getD r []) kws now := by
  have hlen1 : h.length < (h ++ [h.getD r []]).length := by simp
  have hlen2 : h.length < ((h ++ [h.getD r []]).set h.length
      (classifyStage ((h ++ [h.getD r []]).getD h.length []))).length := by
    simp
  simp only [clean_and_filter_heap]
  constructor
  · rw [List.getD_eq_getElem?_getD, List.getElem?_set_ne (by omega),
      List.getElem?_set_ne (by omega), List.getElem?_append_left hr,
      ← List.getD_eq_getElem?_getD]
  · rw [heap_set_getD _ _ _ hlen2, heap_set_getD _ _ _ hlen1,
      heap_getD_fresh]
    rfl

/-- C10 witness: a concrete one-table heap is unchanged at the caller's
slot by a full `clean_and_filter` call. -/
theorem clean_and_filter_frame_witness :
    (clean_and_filter_heap [[sampleGrantRow]] 0 ["wsj"]
        ⟨2025, 1, 1⟩).1.getD 0 [] = [[sampleGrantRow]].getD 0 [] ∧
    (clean_and_filter_heap [[sampleGrantRow]] 0 ["wsj"] ⟨2025, 1, 1⟩).2 =
      clean_and_filter ([[sampleGrantRow]].getD 0 []) ["wsj"] ⟨2025, 1, 1⟩ :=
  clean_and_filter_frame [[sampleGrantRow]] 0 ["wsj"] ⟨2025, 1, 1⟩
    (by decide)

/-- C1 counterexample: with an HTTP 500 on the first (`contract`) group
and good data on the `grant` group, the orchestration loop aborts with
the error instead of continuing: it yields no `.ok` result at all, in
particular not the grant group's tagged data the claim promises. -/
theorem fetch_error_aborts_run_counterexample :
    fetchAwardsLoop
        [("contract", Except.error (FetchError.httpStatus 500)),
         ("grant", Except.ok [sampleGrantRow])]
      = Except.error (FetchError.httpStatus 500) ∧
    fetchAwardsLoop
        [("contract", Except.error (FetchError.httpStatus 500)),
         ("grant", Except.ok [sampleGrantRow])]
      ≠ Except.ok [[{ sampleGrantRow with award_type := Cell.str "grant" }]] :=
  ⟨rfl, fun h => Except.noConfusion h⟩

/-- C1 amended: an HTTP error, missing job id, or job failure in a
group's fetch is *not* caught at the group level — the loop body has no
handler, so the first error aborts the whole run, discarding every
group's data; only an *empty successful* fetch is the "no data" case that
is warned about and skipped while the run continues with the next
group. -/
theorem fetch_error_aborts_run
    (pre : List (String × Except FetchError (List Row))) (atype : String)
    (e : FetchError) (rest : List (String × Except FetchError (List Row)))
    (hpre : ∀ p ∈ pre, ∃ t, p.2 = Except.ok t) :
    fetchAwardsLoop (pre ++ (atype, Except.error e) :: rest) =
      Except.error e ∧
    ∀ (a : String) (l : List (String × Except FetchError (List Row))),
      fetchAwardsLoop ((a, Except.ok []) :: l) = fetchAwardsLoop l := by
  constructor
  · induction pre with
    | nil => rfl
    | cons p pre ih =>
      obtain ⟨t, ht⟩ := hpre p (List.mem_cons_self p pre)
      have ih2 := ih fun q hq => hpre q (List.mem_cons_of_mem p hq)
      obtain ⟨a, res⟩ := p
      simp only at ht
      subst ht
      rw [List.cons_append, fetchAwardsLoop]
      by_cases hT : t.isEmpty
      · simp [hT, ih2]
      · simp [hT, ih2]
  · intro a l
    rfl

/-- C1 amended witness: a successful non-empty `contract` group followed
by a failing `grant` group still aborts the whole run with the job
failure. -/
theorem fetch_error_aborts_run_witness :
    fetchAwardsLoop
        [("contract", Except.ok [sampleGrantRow]),
         ("grant", Except.error FetchError.jobFailed)]
      = Except.error FetchError.jobFailed :=
  (fetch_error_aborts_run [("contract", Except.ok [sampleGrantRow])]
    "grant" FetchError.jobFailed []
    (fun p hp => by
      rw [List.mem_singleton] at hp
      subst hp
      exact ⟨[sampleGrantRow], rfl⟩)).1
